import Mathlib

/-!
Shallow embedding of the Lane County scrape scripts
(`lcapps.py`, `scrape_lane_county_property.py`,
`scrape_lane_county_account.py`, `scrape_lane_county_jail_viewer.py`)
and proofs about the claims of the specification.

Python strings are modelled as lists of characters; Python functions
that can raise are modelled with `Except`/`Option`; the external query
surface (the rendered pages playwright reads) is modelled as explicit
environment structures supplying the reported totals and raw rows.
-/

namespace LaneScrape

/-- Python strings are modelled as lists of characters. -/
abbrev Str := List Char

/-- Build a modelled Python string from a Lean string literal. -/
def pystr (s : String) : Str := s.data

/-- Whitespace test matching Python str.strip's default ASCII whitespace
class: space, tab, newline, carriage return, vertical tab, form feed. -/
def isSpaceB (c : Char) : Bool :=
  c == ' ' || c == '\t' || c == '\n' || c == '\r' || c == '\x0b' || c == '\x0c'

/-- Drop the elements satisfying `p` from both ends of a list.  This is the
shared shape of Python `str.strip()` and of the two `dropwhile`/`reversed`
passes in `clean_address_4`. -/
def stripEnds {α : Type} (p : α → Bool) (l : List α) : List α :=
  ((l.dropWhile p).reverse.dropWhile p).reverse

/-- Python `str.strip()`: remove leading and trailing whitespace. -/
def pyStrip (l : Str) : Str := stripEnds isSpaceB l

/-- Python `str.split(sep)` for a one-character separator: pieces are not
collapsed and empty pieces are kept, `"".split(sep) == [""]`. -/
def splitOn (sep : Char) : Str → List Str
  | [] => [[]]
  | c :: rest =>
    if c = sep then [] :: splitOn sep rest
    else
      match splitOn sep rest with
      | [] => [[c]]
      | g :: gs => (c :: g) :: gs

/-- Python `"\n".join`, used to feed a normalizer its own output (joined back
into one string) when checking idempotence. -/
def joinLines : List Str → Str
  | [] => []
  | [x] => x
  | x :: y :: ys => x ++ '\n' :: joinLines (y :: ys)

/-! ## lcapps.strip -/

/-- One pass of `re.sub(r"\s+", " ", ·)`: every maximal whitespace run becomes
a single space.  `prevSpace` records whether the previous character was part
of a whitespace run already rewritten. -/
def collapseAux (prevSpace : Bool) : Str → Str
  | [] => []
  | c :: rest =>
    if isSpaceB c then
      if prevSpace then collapseAux true rest else ' ' :: collapseAux true rest
    else c :: collapseAux false rest

/-- `lcapps.strip`: `re.sub(r"\s+", " ", text.strip())`. -/
def strip (text : Str) : Str := collapseAux false (pyStrip text)

/-! ## scrape_lane_county_account.py: address normalizers -/

/-- `clean_address_2`: keep the non-blank lines, each stripped, in order. -/
def clean_address_2 (address : Str) : List Str :=
  ((splitOn '\n' address).filter (fun e => !(pyStrip e).isEmpty)).map pyStrip

/-- The inner helper of `clean_address_4`:
`list(reversed(list(dropwhile(lambda x: not x, iterable))))`. -/
def dropunless_and_reverse (l : List Str) : List Str :=
  (l.dropWhile (fun x => x.isEmpty)).reverse

/-- `clean_address_4`: strip every line, then discard empty lines at the
beginning and the end only. -/
def clean_address_4 (address : Str) : List Str :=
  dropunless_and_reverse (dropunless_and_reverse ((splitOn '\n' address).map pyStrip))

/-! ## scrape_lane_county_account.py: clean_money -/

/-- Character class `[0-9.]` of the negative-amount regex. -/
def isDigitDot (c : Char) : Bool := c.isDigit || c == '.'

/-- The decimal digit character for `d < 10`. -/
def digitChar (d : Nat) : Char := Char.ofNat (48 + d)

/-- Numeric value of a decimal digit character. -/
def digitVal (c : Char) : Nat := c.toNat - 48

/-- Value of a big-endian string of decimal digit characters. -/
def natOfDigits (l : Str) : Nat := l.foldl (fun a c => a * 10 + digitVal c) 0

/-- Little-endian base-10 digits of `n`, with structural fuel (any
`fuel ≥ n` is enough). -/
def toDigitsRev (fuel n : Nat) : List Nat :=
  match fuel with
  | 0 => []
  | f + 1 => if n = 0 then [] else n % 10 :: toDigitsRev f (n / 10)

/-- Decimal rendering of a natural number, as `str` of a Python int. -/
def renderNat (n : Nat) : Str :=
  if n = 0 then ['0'] else ((toDigitsRev n n).reverse.map digitChar)

/-- Failure of `decimal.Decimal(cleaned)` (InvalidOperation). -/
inductive MoneyError where
  | invalidDecimal
deriving DecidableEq

/-- `re.match(r"\((\$[0-9.]+)\)", l)`: when `l` starts with `($`, a non-empty
run of `[0-9.]` and then `)`, return capture group 1 (`$` plus the run).
`[0-9.]` does not contain `)`, so the greedy run cannot backtrack: the run is
exactly the maximal `[0-9.]` block after `($`. -/
def parenMatch (l : Str) : Option Str :=
  match l with
  | c1 :: c2 :: rest =>
    if c1 = '(' ∧ c2 = '$' then
      let run := rest.takeWhile isDigitDot
      let after := rest.dropWhile isDigitDot
      if run ≠ [] ∧ after.head? = some ')' then some ('$' :: run) else none
    else none
  | _ => none

/-- `decimal.Decimal(string)` restricted to the plain fixed-point grammar
`[+-]? digits [. digits]` (at least one digit, at most one dot), with the
constructor's own whitespace stripping.  The exponent, NaN/Infinity and
underscore forms of the full decimal grammar never occur in money fields and
are not modelled; on them this parser answers `none` where Python may answer
a value.  The result is (sign, value of all digits, number of fraction
digits). -/
def parseDecimal (l : Str) : Option (Bool × Nat × Nat) :=
  let t := pyStrip l
  let neg : Bool := decide (t.head? = some '-')
  let rest := if t.head? = some '-' ∨ t.head? = some '+' then t.tail else t
  match splitOn '.' rest with
  | [ip] =>
    if !ip.isEmpty && ip.all Char.isDigit then some (neg, natOfDigits ip, 0) else none
  | [ip, fp] =>
    if !(ip ++ fp).isEmpty && ip.all Char.isDigit && fp.all Char.isDigit then
      some (neg, natOfDigits (ip ++ fp), fp.length)
    else none
  | _ => none

/-- `Decimal(·).quantize(Decimal("1.00"))` on the non-negative value
`n / 10^k`, in cents, with the default ROUND_HALF_EVEN rounding. -/
def quantizeHalfEven (n k : Nat) : Int :=
  if k ≤ 2 then ((n * 10 ^ (2 - k) : Nat) : Int)
  else
    let d := 10 ^ (k - 2)
    let q := n / d
    let r := n % d
    if 2 * r < d then (q : Int)
    else if d < 2 * r then ((q + 1 : Nat) : Int)
    else if q % 2 = 0 then (q : Int) else ((q + 1 : Nat) : Int)

/-- `clean_money`: strip, detect a parenthesized (negative) amount, strip
again, remove leading `$` signs and every comma, convert to a two-fraction-
digit decimal, and apply the sign.  The value is in cents: `.ok 123450`
stands for `Decimal("1234.50")`. -/
def clean_money (dollars : Str) : Except MoneyError Int :=
  let prestripped := pyStrip dollars
  let matched := parenMatch prestripped
  let sign : Int := if matched.isSome then -1 else 1
  let prestripped2 := matched.getD prestripped
  let cleaned := ((pyStrip prestripped2).dropWhile (fun c => c == '$')).filter
    (fun c => !(c == ','))
  match parseDecimal cleaned with
  | none => .error .invalidDecimal
  | some (neg, n, k) =>
    let q := quantizeHalfEven n k
    let v := if neg then -q else q
    .ok (v * sign)

/-- The two fraction digit characters of a cents value `r < 100`. -/
def twoFrac (r : Nat) : Str := [digitChar (r / 10), digitChar (r % 10)]

/-- `str` of a quantized two-fraction-digit Decimal: optional minus sign,
integer part, dot, two fraction digits.  (Python's `Decimal("-0.00")` prints
with the sign; as a value in cents that distinction vanishes.) -/
def renderMoney (cents : Int) : Str :=
  (if cents < 0 then ['-'] else []) ++
    renderNat (cents.natAbs / 100) ++ '.' :: twoFrac (cents.natAbs % 100)

/-! ## lcapps.retry (the identical decorator also appears in
scrape_lane_county_account.py)

The wrapped operation is modelled as a function from the attempt number
(1-based) to that attempt's outcome; `sleep` is modelled by recording the
requested durations.  `wrapper` mirrors the recursive closure: try the call;
on failure increment `n_tries`, re-raise once `n_tries > times_to_retry`,
otherwise sleep `n_tries ** 3` seconds and recurse.  The structural `fuel`
only bounds the recursion for Lean; every branch guarded by
`n_tries + 1 ≤ t` is reached with positive fuel whenever `fuel ≥ t - n_tries`,
as `retry` arranges. -/

def wrapper {E A : Type} (t : Nat) (func : Nat → Except E A) :
    Nat → Nat → List Nat × Except E A
  | fuel, n =>
    match func (n + 1) with
    | .ok a => ([], .ok a)
    | .error e =>
      if n + 1 > t then ([], .error e)
      else
        match fuel with
        | 0 => ([], .error e)
        | f + 1 =>
          let rest := wrapper t func f (n + 1)
          ((n + 1) ^ 3 :: rest.1, rest.2)

/-- `retry()` with the default `times_to_retry=5`, applied to `func`, called
with `n_tries=0`: the slept durations in order, and the final outcome. -/
def retry {E A : Type} (func : Nat → Except E A) : List Nat × Except E A :=
  wrapper 5 func 5 0

/-! ## lcapps.write_csv

A record is an insertion-ordered field-name/value mapping (a Python dict);
the destination file is `none` when it does not exist, otherwise its rows
(the csv text is modelled at the row level: one list of cells per line).
`write_csv` appends, writing a header first when the file was absent or
empty; `csv.DictWriter` raises ValueError on a row having a key outside the
fieldnames (after the earlier rows were already written), and fills missing
keys with the empty string. -/

abbrev Record := List (Str × Str)

abbrev CsvContent := List (List Str)

/-- ValueError from `csv.DictWriter` on a row with extra keys. -/
inductive CsvError where
  | extraKeys
deriving DecidableEq

/-- The field names of a record, in insertion order. -/
def keys (r : Record) : List Str := r.map Prod.fst

/-- Look a field up in a record. -/
def lookupField (r : Record) (f : Str) : Option Str :=
  (r.find? (fun p => decide (p.1 = f))).map Prod.snd

/-- One csv line for a record under the writer's fieldnames (missing fields
become the empty string: DictWriter's `restval`). -/
def renderRow (fns : List Str) (r : Record) : List Str :=
  fns.map (fun f => (lookupField r f).getD [])

/-- `writer.writerows(rows)`: write rows in order until one has a key outside
`fns`; return what was written and the error, if any. -/
def writerows (fns : List Str) : List Record → CsvContent × Option CsvError
  | [] => ([], none)
  | r :: rs =>
    if r.all (fun p => decide (p.1 ∈ fns)) then
      let rest := writerows fns rs
      (renderRow fns r :: rest.1, rest.2)
    else ([], some .extraKeys)

/-- `write_csv(output, rows)`: no-op on an empty batch or when the first
record has no fields; otherwise append, with a header (the first record's
keys) first iff the file was missing or empty.  The `dest` directory
argument only relocates the file and is not modelled.  Returns the file
afterwards and the raised error, if any. -/
def write_csv (rows : List Record) (file : Option CsvContent) :
    Option CsvContent × Option CsvError :=
  match rows with
  | [] => (file, none)
  | first :: _ =>
    let fieldnames := keys first
    if fieldnames = [] then (file, none)
    else
      let content := file.getD []
      let withHeader := if content = [] then [fieldnames] else content
      let written := writerows fieldnames rows
      (some (withHeader ++ written.1), written.2)

/-! ## scrape_lane_county_property.py: search

The query surface is an environment: `total pfx` is the number of matching
records for a prefix, `rawRows pfx` the table rows the page shows for a
below-cap prefix.  The pager caps its display at 100 items, so the string
`search` reads ends in "No items to display" when the total is 0, in
"of 100 items" when the total is at least 100, and in "of T items" with
0 < T < 100 otherwise; `search` branches on exactly that information, so the
displayed count is `min (total pfx) 100` and the final
"something weird" ValueError branch of the source is unreachable.  The
recursion depth is bounded with structural fuel, consumed only when a prefix
is subdivided; exhausted fuel is reported as `depthExceeded` (the source
recursion has no such bound: its termination on the real domain is claim C6,
proved below under the interface model). -/

/-- A raw table row: indexable text cells. -/
structure RawRow where
  cell : Nat → Str

/-- The errors of the subdivision strategy: the ValueError raised when the
scraped row count disagrees with the reported total, and the fuel sentinel. -/
inductive ScrapeError where
  | consistency (pfx expected got : Nat)
  | depthExceeded
deriving DecidableEq

/-- `parse_row`: a property record from one table row. -/
def parse_row (row : RawRow) : Record :=
  [(pystr "account", strip (row.cell 1)),
   (pystr "map_and_tax_lot", strip (row.cell 2)),
   (pystr "tax_payer", strip (row.cell 3)),
   (pystr "owner", strip (row.cell 4)),
   (pystr "situs_address", strip (row.cell 5))]

/-- The query surface of the property search. -/
structure Env where
  total : Nat → Nat
  rawRows : Nat → List RawRow

/-- The list comprehension `[search(page, prefix*10+n) for n in range(10)]`:
children evaluated left to right, the first exception aborting the rest. -/
def searchChildren (g : Nat → Except ScrapeError (List Record)) :
    List Nat → Except ScrapeError (List (List Record))
  | [] => .ok []
  | s :: rest =>
    match g s with
    | .error e => .error e
    | .ok r =>
      match searchChildren g rest with
      | .error e => .error e
      | .ok rs => .ok (r :: rs)

/-- `search(page, prefix)`: read the capped item count; empty on
"No items to display"; on "of 100 items" recurse over the ten digit
extensions and concatenate; otherwise scrape the rows and demand exactly the
reported count, raising a consistency ValueError on disagreement. -/
def search (env : Env) (fuel : Nat) (pfx : Nat) : Except ScrapeError (List Record) :=
  let shown := min (env.total pfx) 100
  if shown = 0 then .ok []
  else if shown = 100 then
    match fuel with
    | 0 => .error .depthExceeded
    | f + 1 =>
      Except.map List.flatten
        (searchChildren (fun s => search env f (pfx * 10 + s)) (List.range 10))
  else
    let scraped := (env.rawRows pfx).map parse_row
    if scraped.length = shown then .ok scraped
    else .error (.consistency pfx shown scraped.length)

/-- Number of decimal digits of a prefix (the depth measure of claim C6). -/
def numDigits (n : Nat) : Nat := Nat.log 10 n + 1

/-! ## scrape_lane_county_jail_viewer.py: run

Bookings and their detail pages are modelled as data: each row of a result
page carries the heading's reported charge count and the charge entries
found.  `get_booking` is wrapped in `retry()` in the source; on the modelled
(deterministic) page every attempt returns the same outcome, so the wrapper
reduces to a single attempt and is omitted here.  The assert comparing the
reported and found charge counts raises (AssertionError) on mismatch. -/

/-- What one booking row and its detail page show. -/
structure BookingSrc where
  reported_charges : Nat
  charges : List Str
  name : Str
deriving DecidableEq

/-- AssertionError from `get_booking` when the detail page's charge count
disagrees with the charges found. -/
inductive JailError where
  | chargeMismatch
deriving DecidableEq

/-- A log line of the jail scraper's run. -/
inductive JailLog where
  | countMismatch (expected got : Nat)
deriving DecidableEq

/-- `get_booking`: scrape one booking, asserting the charge count. -/
def get_booking (b : BookingSrc) : Except JailError BookingSrc :=
  if b.reported_charges = b.charges.length then .ok b
  else .error .chargeMismatch

/-- `get_page`: the bookings of one result page, in order; the first
assertion failure aborts. -/
def get_page : List BookingSrc → Except JailError (List BookingSrc)
  | [] => .ok []
  | b :: rest =>
    match get_booking b with
    | .error e => .error e
    | .ok r =>
      match get_page rest with
      | .error e => .error e
      | .ok rs => .ok (r :: rs)

/-- `get_paginated`: the current page, then every paginated successor while
the pager offers a next-page control. -/
def get_paginated : List (List BookingSrc) → Except JailError (List BookingSrc)
  | [] => .ok []
  | p :: rest =>
    match get_page p with
    | .error e => .error e
    | .ok r =>
      match get_paginated rest with
      | .error e => .error e
      | .ok rs => .ok (r ++ rs)

/-- The query surface of the jail viewer: the heading's total-candidates
count and the successive result pages. -/
structure JailEnv where
  totalCandidates : Nat
  pages : List (List BookingSrc)

/-- Every booking the result pages hold, as `run` walks them: all pages when
the total exceeds 15 (pagination), only the first page otherwise. -/
def extracted_bookings (env : JailEnv) : List BookingSrc :=
  if env.totalCandidates > 15 then env.pages.flatten else env.pages.headD []

/-- `run`: read the total, scrape (paginated iff the total exceeds 15),
log a discrepancy when the total disagrees with the number of results, and
return the results regardless. -/
def run (env : JailEnv) : Except JailError (List BookingSrc × List JailLog) :=
  let n := env.totalCandidates
  let fetched :=
    if n > 15 then get_paginated env.pages else get_page (env.pages.headD [])
  match fetched with
  | .error e => .error e
  | .ok results =>
    let logs :=
      if n ≠ results.length then [JailLog.countMismatch n results.length] else []
    .ok (results, logs)

/-! ## Generic lemmas about the string helpers -/

theorem dropWhile_head?_not {α : Type} (p : α → Bool) (l : List α) (x : α)
    (h : (l.dropWhile p).head? = some x) : p x = false := by
  induction l with
  | nil => simp [List.dropWhile] at h
  | cons a t ih =>
    rw [List.dropWhile_cons] at h
    by_cases hp : p a = true
    · rw [if_pos hp] at h
      exact ih h
    · rw [if_neg hp] at h
      simp only [List.head?_cons, Option.some.injEq] at h
      subst h
      exact Bool.eq_false_iff.mpr hp

theorem dropWhile_eq_self_of_head? {α : Type} (p : α → Bool) (l : List α)
    (h : ∀ x, l.head? = some x → p x = false) : l.dropWhile p = l := by
  cases l with
  | nil => rfl
  | cons a t =>
    rw [List.dropWhile_cons, if_neg]
    simp [h a rfl]

theorem getLast?_of_suffix {α : Type} {l m : List α} (h : l <:+ m) (hne : l ≠ []) :
    m.getLast? = l.getLast? := by
  obtain ⟨t, rfl⟩ := h
  rw [List.getLast?_append]
  cases hl : l.getLast? with
  | none => exact absurd (List.getLast?_eq_none_iff.mp hl) hne
  | some a => rfl

theorem stripEnds_head?_not {α : Type} (p : α → Bool) (l : List α) (x : α)
    (h : (stripEnds p l).head? = some x) : p x = false := by
  unfold stripEnds at h
  rw [List.head?_reverse] at h
  have hne : (l.dropWhile p).reverse.dropWhile p ≠ [] := by
    intro h0
    rw [h0] at h
    simp at h
  have := getLast?_of_suffix (List.dropWhile_suffix (l := (l.dropWhile p).reverse) p) hne
  rw [← this, List.getLast?_reverse] at h
  exact dropWhile_head?_not p l x h

theorem stripEnds_getLast?_not {α : Type} (p : α → Bool) (l : List α) (x : α)
    (h : (stripEnds p l).getLast? = some x) : p x = false := by
  unfold stripEnds at h
  rw [List.getLast?_reverse] at h
  exact dropWhile_head?_not p _ x h

theorem stripEnds_eq_self {α : Type} (p : α → Bool) (l : List α)
    (hh : ∀ x, l.head? = some x → p x = false)
    (hl : ∀ x, l.getLast? = some x → p x = false) : stripEnds p l = l := by
  unfold stripEnds
  rw [dropWhile_eq_self_of_head? p l hh]
  rw [dropWhile_eq_self_of_head? p l.reverse]
  · exact List.reverse_reverse l
  · intro x hx
    rw [List.head?_reverse] at hx
    exact hl x hx

theorem stripEnds_idem {α : Type} (p : α → Bool) (l : List α) :
    stripEnds p (stripEnds p l) = stripEnds p l :=
  stripEnds_eq_self p _ (stripEnds_head?_not p l) (stripEnds_getLast?_not p l)

theorem mem_of_mem_stripEnds {α : Type} (p : α → Bool) {x : α} {l : List α}
    (h : x ∈ stripEnds p l) : x ∈ l := by
  unfold stripEnds at h
  rw [List.mem_reverse] at h
  have h2 := (List.dropWhile_suffix (l := (l.dropWhile p).reverse) p).subset h
  rw [List.mem_reverse] at h2
  exact (List.dropWhile_suffix p).subset h2

theorem stripEnds_eq_self_of_forall {α : Type} (p : α → Bool) (l : List α)
    (h : ∀ x ∈ l, p x = false) : stripEnds p l = l :=
  stripEnds_eq_self p l
    (fun x hx => h x (List.mem_of_mem_head? (by rw [hx]; rfl)))
    (fun x hx => h x (List.mem_of_mem_getLast? (by rw [hx]; rfl)))

theorem splitOn_ne_nil (sep : Char) (l : Str) : splitOn sep l ≠ [] := by
  induction l with
  | nil => simp [splitOn]
  | cons c rest ih =>
    by_cases h : c = sep
    · simp [splitOn, h]
    · simp only [splitOn, if_neg h]
      cases hs : splitOn sep rest with
      | nil => simp
      | cons g gs => simp

theorem not_mem_of_mem_splitOn (sep : Char) (l : Str) :
    ∀ g ∈ splitOn sep l, sep ∉ g := by
  induction l with
  | nil =>
    intro g hg
    simp only [splitOn, List.mem_singleton] at hg
    subst hg
    simp
  | cons c rest ih =>
    intro g hg
    by_cases h : c = sep
    · rw [splitOn, if_pos h] at hg
      rcases List.mem_cons.mp hg with h1 | h1
      · subst h1; simp
      · exact ih g h1
    · rw [splitOn, if_neg h] at hg
      cases hs : splitOn sep rest with
      | nil => exact absurd hs (splitOn_ne_nil sep rest)
      | cons g0 gs =>
        rw [hs] at hg
        rcases List.mem_cons.mp hg with h1 | h1
        · subst h1
          intro hmem
          rcases List.mem_cons.mp hmem with h2 | h2
          · exact h h2.symm
          · exact ih g0 (hs ▸ List.mem_cons_self g0 gs) h2
        · exact ih g (hs ▸ List.mem_cons_of_mem g0 h1)

theorem splitOn_of_not_mem (sep : Char) (l : Str) (h : sep ∉ l) :
    splitOn sep l = [l] := by
  induction l with
  | nil => rfl
  | cons c rest ih =>
    have hc : ¬c = sep := fun he => h (he ▸ List.mem_cons_self c rest)
    rw [splitOn, if_neg hc, ih (fun hm => h (List.mem_cons_of_mem c hm))]

theorem splitOn_append_sep (sep : Char) (a b : Str) (h : sep ∉ a) :
    splitOn sep (a ++ sep :: b) = a :: splitOn sep b := by
  induction a with
  | nil => simp [splitOn]
  | cons c t ih =>
    have hc : ¬c = sep := fun he => h (he ▸ List.mem_cons_self c t)
    rw [List.cons_append, splitOn, if_neg hc,
      ih (fun hm => h (List.mem_cons_of_mem c hm))]

theorem splitOn_joinLines (R : List Str) (hne : R ≠ [])
    (h : ∀ r ∈ R, '\n' ∉ r) : splitOn '\n' (joinLines R) = R := by
  induction R with
  | nil => exact absurd rfl hne
  | cons x xs ih =>
    cases xs with
    | nil => exact splitOn_of_not_mem '\n' x (h x (List.mem_cons_self x []))
    | cons y ys =>
      rw [joinLines, splitOn_append_sep '\n' x (joinLines (y :: ys))
        (h x (List.mem_cons_self x (y :: ys)))]
      rw [ih (by simp) (fun r hr => h r (List.mem_cons_of_mem x hr))]

theorem map_eq_self_of_forall {α : Type} (f : α → α) (l : List α)
    (h : ∀ x ∈ l, f x = x) : l.map f = l := by
  induction l with
  | nil => rfl
  | cons a t ih =>
    rw [List.map_cons, h a (List.mem_cons_self a t),
      ih (fun x hx => h x (List.mem_cons_of_mem a hx))]

/-! ## Lemmas about decimal digits and the money round trip -/

theorem toDigitsRev_eq_digits (fuel : Nat) : ∀ n : Nat, n ≤ fuel →
    toDigitsRev fuel n = Nat.digits 10 n := by
  induction fuel with
  | zero =>
    intro n hn
    interval_cases n
    rw [toDigitsRev, Nat.digits_zero]
  | succ f ih =>
    intro n hn
    by_cases h0 : n = 0
    · subst h0
      rw [toDigitsRev, if_pos rfl, Nat.digits_zero]
    · rw [toDigitsRev, if_neg h0,
        Nat.digits_def' (by norm_num : 1 < 10) (Nat.pos_of_ne_zero h0)]
      have hdiv : n / 10 < n := Nat.div_lt_self (Nat.pos_of_ne_zero h0) (by norm_num)
      rw [ih (n / 10) (by omega)]

theorem foldl_base10 (ds : List Nat) : ∀ a : Nat,
    List.foldl (fun x d => x * 10 + d) a ds.reverse =
      a * 10 ^ ds.length + Nat.ofDigits 10 ds := by
  induction ds with
  | nil => intro a; simp
  | cons d tl ih =>
    intro a
    rw [List.reverse_cons, List.foldl_append, ih a]
    simp only [List.foldl_cons, List.foldl_nil, Nat.ofDigits_cons, List.length_cons]
    ring

theorem digitVal_digitChar (d : Nat) (h : d < 10) : digitVal (digitChar d) = d := by
  interval_cases d <;> rfl

theorem isDigit_digitChar (d : Nat) (h : d < 10) : (digitChar d).isDigit = true := by
  interval_cases d <;> rfl

theorem natOfDigits_map_digitChar (ds : List Nat) : ∀ a : Nat, (∀ d ∈ ds, d < 10) →
    List.foldl (fun x c => x * 10 + digitVal c) a (ds.map digitChar) =
      List.foldl (fun x d => x * 10 + d) a ds := by
  induction ds with
  | nil => intro a _; rfl
  | cons d tl ih =>
    intro a h
    rw [List.map_cons, List.foldl_cons, List.foldl_cons,
      digitVal_digitChar d (h d (List.mem_cons_self d tl))]
    exact ih _ (fun x hx => h x (List.mem_cons_of_mem d hx))

theorem natOfDigits_renderNat (n : Nat) : natOfDigits (renderNat n) = n := by
  by_cases h0 : n = 0
  · subst h0; rfl
  · rw [renderNat, if_neg h0, toDigitsRev_eq_digits n n le_rfl]
    unfold natOfDigits
    rw [natOfDigits_map_digitChar _ 0
        (fun d hd =>
          Nat.digits_lt_base (by norm_num) (List.mem_reverse.mp hd)),
      foldl_base10]
    simp [Nat.ofDigits_digits]

theorem renderNat_ne_nil (n : Nat) : renderNat n ≠ [] := by
  by_cases h0 : n = 0
  · subst h0; simp [renderNat]
  · rw [renderNat, if_neg h0]
    intro h
    rw [List.map_eq_nil_iff, List.reverse_eq_nil_iff,
      toDigitsRev_eq_digits n n le_rfl] at h
    exact (Nat.digits_ne_nil_iff_ne_zero.mpr h0) h

theorem mem_renderNat_isDigit (n : Nat) : ∀ c ∈ renderNat n, c.isDigit = true := by
  intro c hc
  by_cases h0 : n = 0
  · subst h0
    rw [renderNat, if_pos rfl, List.mem_singleton] at hc
    subst hc
    rfl
  · rw [renderNat, if_neg h0, toDigitsRev_eq_digits n n le_rfl] at hc
    rcases List.mem_map.mp hc with ⟨d, hd, rfl⟩
    exact isDigit_digitChar d
      (Nat.digits_lt_base (by norm_num) (List.mem_reverse.mp hd))

theorem isDigit_ne {c d : Char} (h : c.isDigit = true) (hd : d.isDigit = false) :
    c ≠ d := by
  intro he
  rw [he, hd] at h
  exact Bool.false_ne_true h

theorem isSpaceB_eq_false_of_isDigit {c : Char} (h : c.isDigit = true) :
    isSpaceB c = false := by
  simp only [isSpaceB, Bool.or_eq_false_iff, beq_eq_false_iff_ne]
  exact ⟨⟨⟨⟨⟨isDigit_ne h (by rfl), isDigit_ne h (by rfl)⟩, isDigit_ne h (by rfl)⟩,
    isDigit_ne h (by rfl)⟩, isDigit_ne h (by rfl)⟩, isDigit_ne h (by rfl)⟩

/-- Character classification of the rendered money string: minus sign,
decimal digits, or the decimal point. -/
theorem mem_renderMoney (c : Int) (x : Char) (hx : x ∈ renderMoney c) :
    x = '-' ∨ x.isDigit = true ∨ x = '.' := by
  have htail : x ∈ '.' :: twoFrac (c.natAbs % 100) →
      x = '-' ∨ x.isDigit = true ∨ x = '.' := by
    intro h3
    rcases List.mem_cons.mp h3 with h4 | h4
    · exact Or.inr (Or.inr h4)
    · unfold twoFrac at h4
      rcases List.mem_cons.mp h4 with h5 | h5
      · exact Or.inr (Or.inl (h5 ▸ isDigit_digitChar _ (by omega)))
      · rcases List.mem_singleton.mp h5 with rfl
        exact Or.inr (Or.inl (isDigit_digitChar _ (by omega)))
  unfold renderMoney at hx
  rcases List.mem_append.mp hx with h | h
  · rcases List.mem_append.mp h with h2 | h2
    · by_cases hneg : c < 0
      · rw [if_pos hneg] at h2
        exact Or.inl (List.mem_singleton.mp h2)
      · rw [if_neg hneg] at h2
        exact absurd h2 (List.not_mem_nil x)
    · exact Or.inr (Or.inl (mem_renderNat_isDigit _ x h2))
  · exact htail h

theorem renderMoney_no_space (c : Int) :
    ∀ x ∈ renderMoney c, isSpaceB x = false := by
  intro x hx
  rcases mem_renderMoney c x hx with rfl | h | rfl
  · rfl
  · exact isSpaceB_eq_false_of_isDigit h
  · rfl

theorem pyStrip_renderMoney (c : Int) : pyStrip (renderMoney c) = renderMoney c :=
  stripEnds_eq_self_of_forall isSpaceB _ (renderMoney_no_space c)

theorem parenMatch_eq_none_of_head {l : Str}
    (h : ∀ x, l.head? = some x → x ≠ '(') : parenMatch l = none := by
  match l with
  | [] => rfl
  | [c1] => rfl
  | c1 :: c2 :: rest =>
    rw [parenMatch, if_neg]
    intro hand
    exact h c1 rfl hand.1

theorem natOfDigits_renderNat_twoFrac (q r : Nat) (hr : r < 100) :
    natOfDigits (renderNat q ++ twoFrac r) = 100 * q + r := by
  rw [natOfDigits, List.foldl_append]
  have h1 : List.foldl (fun a c => a * 10 + digitVal c) 0 (renderNat q) = q :=
    natOfDigits_renderNat q
  rw [h1, twoFrac]
  simp only [List.foldl_cons, List.foldl_nil]
  rw [digitVal_digitChar (r / 10) (by omega), digitVal_digitChar (r % 10) (by omega)]
  omega

theorem dot_not_mem_renderNat (q : Nat) : '.' ∉ renderNat q := by
  intro h
  have h2 := mem_renderNat_isDigit q '.' h
  rw [show ('.').isDigit = false from rfl] at h2
  exact Bool.false_ne_true h2

theorem mem_twoFrac_isDigit (r : Nat) (hr : r < 100) :
    ∀ x ∈ twoFrac r, x.isDigit = true := by
  intro x hx
  unfold twoFrac at hx
  rcases List.mem_cons.mp hx with rfl | hx2
  · exact isDigit_digitChar _ (by omega)
  · rcases List.mem_singleton.mp hx2 with rfl
    exact isDigit_digitChar _ (by omega)

theorem dot_not_mem_twoFrac (r : Nat) (hr : r < 100) : '.' ∉ twoFrac r := by
  intro h
  have h2 := mem_twoFrac_isDigit r hr '.' h
  rw [show ('.').isDigit = false from rfl] at h2
  exact Bool.false_ne_true h2

theorem renderMoney_head (c : Int) :
    ∃ x, (renderMoney c).head? = some x ∧ (x = '-' ∨ x.isDigit = true) := by
  unfold renderMoney
  by_cases hneg : c < 0
  · rw [if_pos hneg]
    exact ⟨'-', rfl, Or.inl rfl⟩
  · rw [if_neg hneg, List.nil_append]
    cases hq : renderNat (c.natAbs / 100) with
    | nil => exact absurd hq (renderNat_ne_nil _)
    | cons d ds =>
      exact ⟨d, rfl,
        Or.inr (mem_renderNat_isDigit _ d (hq ▸ List.mem_cons_self d ds))⟩

theorem parenMatch_renderMoney (c : Int) : parenMatch (renderMoney c) = none := by
  obtain ⟨x, hx, hcase⟩ := renderMoney_head c
  apply parenMatch_eq_none_of_head
  intro y hy
  rw [hx] at hy
  rcases Option.some.inj hy with rfl
  rcases hcase with rfl | h
  · decide
  · exact isDigit_ne h rfl

theorem dropDollar_renderMoney (c : Int) :
    (renderMoney c).dropWhile (fun ch => ch == '$') = renderMoney c := by
  apply dropWhile_eq_self_of_head?
  intro x hx
  obtain ⟨y, hy, hcase⟩ := renderMoney_head c
  rw [hy] at hx
  rcases Option.some.inj hx with rfl
  rcases hcase with rfl | h
  · rfl
  · exact beq_eq_false_iff_ne.mpr (isDigit_ne h rfl)

theorem filterComma_renderMoney (c : Int) :
    (renderMoney c).filter (fun ch => !(ch == ',')) = renderMoney c := by
  apply List.filter_eq_self.mpr
  intro x hx
  have hne : x ≠ ',' := by
    rcases mem_renderMoney c x hx with rfl | h | rfl
    · decide
    · exact isDigit_ne h rfl
    · decide
  rw [beq_eq_false_iff_ne.mpr hne]
  rfl

theorem splitOn_renderMoney_body (q r : Nat) (hr : r < 100) :
    splitOn '.' (renderNat q ++ '.' :: twoFrac r) = [renderNat q, twoFrac r] := by
  rw [splitOn_append_sep '.' (renderNat q) (twoFrac r) (dot_not_mem_renderNat q),
    splitOn_of_not_mem '.' (twoFrac r) (dot_not_mem_twoFrac r hr)]

theorem parseDecimal_renderMoney_body (q r : Nat) (hr : r < 100) :
    ∀ neg : Bool,
      (match splitOn '.' (renderNat q ++ '.' :: twoFrac r) with
        | [ip] =>
          if !ip.isEmpty && ip.all Char.isDigit then
            some (neg, natOfDigits ip, 0)
          else none
        | [ip, fp] =>
          if !(ip ++ fp).isEmpty && ip.all Char.isDigit && fp.all Char.isDigit then
            some (neg, natOfDigits (ip ++ fp), fp.length)
          else none
        | _ => none) = some (neg, 100 * q + r, 2) := by
  intro neg
  rw [splitOn_renderMoney_body q r hr]
  have hne : ¬(renderNat q ++ twoFrac r).isEmpty = true := by
    rw [List.isEmpty_iff]
    intro h
    exact renderNat_ne_nil q (List.append_eq_nil.mp h).1
  have hd1 : (renderNat q).all Char.isDigit = true :=
    List.all_eq_true.mpr (mem_renderNat_isDigit q)
  have hd2 : (twoFrac r).all Char.isDigit = true :=
    List.all_eq_true.mpr (mem_twoFrac_isDigit r hr)
  simp only [hd1, hd2, Bool.and_true]
  rw [if_pos (by simp [hne]), natOfDigits_renderNat_twoFrac q r hr]
  rfl

/-- Reparsing the canonical rendering of a cleaned money value yields the
same value: the core of the idempotence claim for the money normalizer. -/
theorem clean_money_renderMoney (c : Int) : clean_money (renderMoney c) = .ok c := by
  have hstrip := pyStrip_renderMoney c
  have hparen := parenMatch_renderMoney c
  have hq : c.natAbs % 100 < 100 := Nat.mod_lt _ (by norm_num)
  have hmain : 100 * (c.natAbs / 100) + c.natAbs % 100 = c.natAbs := by omega
  have hparse : parseDecimal (renderMoney c) =
      some (decide (c < 0), c.natAbs, 2) := by
    simp only [parseDecimal]
    rw [hstrip]
    by_cases hneg : c < 0
    · have hform : renderMoney c =
          '-' :: (renderNat (c.natAbs / 100) ++ '.' :: twoFrac (c.natAbs % 100)) := by
        unfold renderMoney
        rw [if_pos hneg]
        rfl
      rw [hform]
      rw [if_pos (Or.inl (by rw [List.head?_cons]))]
      rw [List.tail_cons, parseDecimal_renderMoney_body _ _ hq _, hmain,
        decide_eq_true hneg, List.head?_cons, decide_eq_true rfl]
    · have hform : renderMoney c =
          renderNat (c.natAbs / 100) ++ '.' :: twoFrac (c.natAbs % 100) := by
        unfold renderMoney
        rw [if_neg hneg, List.nil_append]
      obtain ⟨x, hx, hcase⟩ := renderMoney_head c
      have hxd : x.isDigit = true := by
        rcases hcase with rfl | h
        · exfalso
          rw [hform] at hx
          cases hq2 : renderNat (c.natAbs / 100) with
          | nil => exact absurd hq2 (renderNat_ne_nil _)
          | cons d ds =>
            rw [hq2, List.cons_append, List.head?_cons] at hx
            have hd := Option.some.inj hx
            have h3 : ('-').isDigit = true := by
              rw [← hd]
              exact mem_renderNat_isDigit (c.natAbs / 100) d
                (by rw [hq2]; exact List.mem_cons_self d ds)
            rw [show ('-').isDigit = false from rfl] at h3
            exact Bool.false_ne_true h3
        · exact h
      have hdash : ¬(renderMoney c).head? = some '-' := by
        rw [hx]
        intro h
        have := Option.some.inj h
        rw [this, show ('-').isDigit = false from rfl] at hxd
        exact Bool.false_ne_true hxd
      have hplus : ¬(renderMoney c).head? = some '+' := by
        rw [hx]
        intro h
        have := Option.some.inj h
        rw [this, show ('+').isDigit = false from rfl] at hxd
        exact Bool.false_ne_true hxd
      rw [if_neg (by rintro (h | h) <;> [exact hdash h; exact hplus h]),
        decide_eq_false hdash]
      conv_lhs => rw [hform]
      rw [parseDecimal_renderMoney_body _ _ hq _, hmain, decide_eq_false hneg]
  simp only [clean_money]
  rw [hstrip, hparen]
  simp only [Option.isSome_none, Option.getD_none, Bool.false_eq_true, if_false]
  rw [hstrip, dropDollar_renderMoney c, filterComma_renderMoney c, hparse]
  have hquant : quantizeHalfEven c.natAbs 2 = (c.natAbs : Int) := by
    unfold quantizeHalfEven
    rw [if_pos (le_refl 2)]
    norm_num
  show Except.ok ((if decide (c < 0) = true then -quantizeHalfEven c.natAbs 2
    else quantizeHalfEven c.natAbs 2) * 1) = Except.ok c
  rw [hquant]
  by_cases hneg : c < 0
  · rw [decide_eq_true hneg]
    simp only [if_true, mul_one, Except.ok.injEq]
    omega
  · rw [decide_eq_false hneg]
    simp only [Bool.false_eq_true, if_false, mul_one, Except.ok.injEq]
    omega

/-! ## Idempotence of the address normalizers -/

theorem clean_address_2_mem (a : Str) :
    ∀ r ∈ clean_address_2 a, pyStrip r = r ∧ r ≠ [] ∧ '\n' ∉ r := by
  intro r hr
  unfold clean_address_2 at hr
  rcases List.mem_map.mp hr with ⟨e, he, rfl⟩
  rcases List.mem_filter.mp he with ⟨hes, hkeep⟩
  refine ⟨stripEnds_idem isSpaceB e, ?_, ?_⟩
  · intro h0
    rw [pyStrip] at h0
    simp [pyStrip, h0] at hkeep
  · intro hmem
    exact not_mem_of_mem_splitOn '\n' a e hes (mem_of_mem_stripEnds isSpaceB hmem)

theorem clean_address_2_idem (a : Str) :
    clean_address_2 (joinLines (clean_address_2 a)) = clean_address_2 a := by
  cases hR : clean_address_2 a with
  | nil => rfl
  | cons r rs =>
    have hmem := clean_address_2_mem a
    have hsplit : splitOn '\n' (joinLines (r :: rs)) = r :: rs :=
      splitOn_joinLines _ (by simp)
        (fun x hx => (hmem x (by rw [hR]; exact hx)).2.2)
    unfold clean_address_2
    rw [hsplit]
    have hfilter : (r :: rs).filter (fun e => !(pyStrip e).isEmpty) = r :: rs := by
      apply List.filter_eq_self.mpr
      intro x hx
      obtain ⟨hs, hne', _⟩ := hmem x (by rw [hR]; exact hx)
      rw [hs]
      cases x with
      | nil => exact absurd rfl hne'
      | cons y ys => rfl
    rw [hfilter]
    exact map_eq_self_of_forall _ _ (fun x hx => (hmem x (by rw [hR]; exact hx)).1)

theorem dd_dd (l : List Str) :
    dropunless_and_reverse (dropunless_and_reverse l) =
      stripEnds (fun x => x.isEmpty) l := rfl

theorem clean_address_4_mem (a : Str) :
    ∀ r ∈ clean_address_4 a, pyStrip r = r ∧ '\n' ∉ r := by
  intro r hr
  unfold clean_address_4 at hr
  rw [dd_dd] at hr
  have hr2 := mem_of_mem_stripEnds _ hr
  rcases List.mem_map.mp hr2 with ⟨e, he, rfl⟩
  exact ⟨stripEnds_idem isSpaceB e,
    fun hmem =>
      not_mem_of_mem_splitOn '\n' a e he (mem_of_mem_stripEnds isSpaceB hmem)⟩

theorem clean_address_4_idem (a : Str) :
    clean_address_4 (joinLines (clean_address_4 a)) = clean_address_4 a := by
  cases hR : clean_address_4 a with
  | nil => rfl
  | cons r rs =>
    have hmem := clean_address_4_mem a
    have hsplit : splitOn '\n' (joinLines (r :: rs)) = r :: rs :=
      splitOn_joinLines _ (by simp)
        (fun x hx => (hmem x (by rw [hR]; exact hx)).2)
    unfold clean_address_4
    rw [dd_dd, hsplit,
      map_eq_self_of_forall pyStrip (r :: rs)
        (fun x hx => (hmem x (by rw [hR]; exact hx)).1)]
    have hR2 : stripEnds (fun x => x.isEmpty) ((splitOn '\n' a).map pyStrip) =
        r :: rs := by
      rw [← dd_dd]
      exact hR
    rw [← hR2, stripEnds_idem]

/-! ## Claim C7: normalizer idempotence -/

/-- C7: applying the money normalizer to the canonical rendering of its own
output returns that output unchanged, and re-applying either address
normalizer to its own (rejoined) output returns it unchanged. -/
theorem normalizers_idempotent :
    (∀ s c, clean_money s = .ok c → clean_money (renderMoney c) = .ok c) ∧
    (∀ a, clean_address_2 (joinLines (clean_address_2 a)) = clean_address_2 a) ∧
    (∀ a, clean_address_4 (joinLines (clean_address_4 a)) = clean_address_4 a) :=
  ⟨fun _ c _ => clean_money_renderMoney c, clean_address_2_idem, clean_address_4_idem⟩

/-- Witness for C7 at concrete inputs. -/
theorem normalizers_idempotent_witness :
    clean_money (renderMoney (-1201)) = .ok (-1201) ∧
    clean_address_2 (joinLines (clean_address_2 (pystr "123 Main St\n\nEugene OR"))) =
      clean_address_2 (pystr "123 Main St\n\nEugene OR") ∧
    clean_address_4 (joinLines (clean_address_4 (pystr "\nJohn Doe\n\nPO Box 1\n"))) =
      clean_address_4 (pystr "\nJohn Doe\n\nPO Box 1\n") :=
  ⟨normalizers_idempotent.1 (pystr "($12.01)") (-1201) (by rfl),
   normalizers_idempotent.2.1 (pystr "123 Main St\n\nEugene OR"),
   normalizers_idempotent.2.2 (pystr "\nJohn Doe\n\nPO Box 1\n")⟩

/-! ## Claim C8: address normalizer examples -/

/-- C8: the compact normalizer drops the blank line of the two-line situs
block, and the trimmed normalizer drops only the leading and trailing blank
lines of the four-slot mailing block, preserving the interior blank line. -/
theorem clean_address_examples :
    clean_address_2 (pystr "123 Main St\n\nEugene OR") =
      [pystr "123 Main St", pystr "Eugene OR"] ∧
    clean_address_4 (pystr "\nJohn Doe\n\nPO Box 1\nEugene OR 97401\n") =
      [pystr "John Doe", pystr "", pystr "PO Box 1", pystr "Eugene OR 97401"] :=
  ⟨rfl, rfl⟩

/-! ## Claim C4: the money normalizer -/

theorem takeWhile_append_all {α : Type} (p : α → Bool) (ds l : List α)
    (h : ∀ x ∈ ds, p x = true) : (ds ++ l).takeWhile p = ds ++ l.takeWhile p := by
  induction ds with
  | nil => rfl
  | cons d tl ih =>
    rw [List.cons_append, List.takeWhile_cons, if_pos (h d (List.mem_cons_self d tl)),
      ih (fun x hx => h x (List.mem_cons_of_mem d hx)), List.cons_append]

theorem dropWhile_append_all {α : Type} (p : α → Bool) (ds l : List α)
    (h : ∀ x ∈ ds, p x = true) : (ds ++ l).dropWhile p = l.dropWhile p := by
  induction ds with
  | nil => rfl
  | cons d tl ih =>
    rw [List.cons_append, List.dropWhile_cons_of_pos (h d (List.mem_cons_self d tl)),
      ih (fun x hx => h x (List.mem_cons_of_mem d hx))]

theorem isSpaceB_eq_false_of_isDigitDot {c : Char} (h : isDigitDot c = true) :
    isSpaceB c = false := by
  rw [isDigitDot, Bool.or_eq_true] at h
  rcases h with h | h
  · exact isSpaceB_eq_false_of_isDigit h
  · rw [eq_of_beq h]
    rfl

/-- The general shape behind the parenthesized-negative pattern: wrapping a
non-empty `[0-9.]` numeral in `($` and `)` negates what the `$`-prefixed
numeral alone would produce (value or conversion error alike). -/
theorem clean_money_paren_general (ds : Str) (hne : ds ≠ [])
    (hall : ∀ ch ∈ ds, isDigitDot ch = true) :
    clean_money ('(' :: '$' :: (ds ++ [')'])) =
      Except.map (fun v => -v) (clean_money ('$' :: ds)) := by
  have hstrip1 : pyStrip ('(' :: '$' :: (ds ++ [')'])) =
      '(' :: '$' :: (ds ++ [')']) := by
    apply stripEnds_eq_self_of_forall
    intro x hx
    rcases List.mem_cons.mp hx with rfl | hx
    · rfl
    · rcases List.mem_cons.mp hx with rfl | hx
      · rfl
      · rcases List.mem_append.mp hx with hx | hx
        · exact isSpaceB_eq_false_of_isDigitDot (hall x hx)
        · rcases List.mem_singleton.mp hx with rfl
          rfl
  have hstrip2 : pyStrip ('$' :: ds) = '$' :: ds := by
    apply stripEnds_eq_self_of_forall
    intro x hx
    rcases List.mem_cons.mp hx with rfl | hx
    · rfl
    · exact isSpaceB_eq_false_of_isDigitDot (hall x hx)
  have hparen1 : parenMatch ('(' :: '$' :: (ds ++ [')'])) = some ('$' :: ds) := by
    simp only [parenMatch]
    rw [if_pos ⟨trivial, trivial⟩, takeWhile_append_all isDigitDot ds [')'] hall,
      dropWhile_append_all isDigitDot ds [')'] hall]
    rw [show List.takeWhile isDigitDot [')'] = [] from rfl,
      show List.dropWhile isDigitDot [')'] = [')'] from rfl, List.append_nil]
    rw [if_pos ⟨hne, rfl⟩]
  have hparen2 : parenMatch ('$' :: ds) = none := by
    apply parenMatch_eq_none_of_head
    intro x hx
    rw [List.head?_cons] at hx
    rw [← Option.some.inj hx]
    decide
  simp only [clean_money]
  rw [hstrip1, hstrip2, hparen1, hparen2]
  simp only [Option.isSome_some, Option.isSome_none, Option.getD_some,
    Option.getD_none, if_true, Bool.false_eq_true, if_false]
  rw [hstrip2]
  cases hp : parseDecimal (((pyStrip ('$' :: ds)).dropWhile
      (fun c => c == '$')).filter (fun c => !(c == ','))) with
  | none => rw [hstrip2] at hp; rw [hp]; rfl
  | some v =>
    obtain ⟨neg, n, k⟩ := v
    rw [hstrip2] at hp
    rw [hp]
    show Except.ok _ = Except.map _ (Except.ok _)
    simp only [Except.map]
    congr 1
    ring

/-- C4 counterexample: a parenthesized amount containing a thousands
separator is not matched by the negative-amount regex and the remaining
parenthesized text is not a valid decimal, so the conversion raises instead
of producing the negative value the claim asserts. -/
theorem clean_money_paren_comma_rejected :
    clean_money (pystr "($1,234.50)") = .error .invalidDecimal := rfl

/-- C4 amended: the three documented examples hold, a parenthesized numeral
without thousands separators negates the plain `$` amount, but
`"($1,234.50)"` raises a conversion error rather than normalizing to a
negative value. -/
theorem clean_money_spec_cases :
    clean_money (pystr "$1,234.50") = .ok 123450 ∧
    clean_money (pystr "($12.01)") = .ok (-1201) ∧
    clean_money (pystr " $0.00 ") = .ok 0 ∧
    clean_money (pystr "($1,234.50)") = .error .invalidDecimal ∧
    (∀ ds : Str, ds ≠ [] → (∀ ch ∈ ds, isDigitDot ch = true) →
      clean_money ('(' :: '$' :: (ds ++ [')'])) =
        Except.map (fun v => -v) (clean_money ('$' :: ds))) :=
  ⟨rfl, rfl, rfl, rfl, clean_money_paren_general⟩

/-- Witness for the general clause of the amended C4 at `ds = "12.01"`. -/
theorem clean_money_spec_cases_witness :
    clean_money ('(' :: '$' :: (pystr "12.01" ++ [')'])) =
      Except.map (fun v => -v) (clean_money ('$' :: pystr "12.01")) :=
  clean_money_spec_cases.2.2.2.2 (pystr "12.01") (by decide) (by decide)

/-! ## Claim C3: the retry wrapper -/

/-- An operation that fails on attempts 1 to 4 and succeeds on attempt 5. -/
def opFailsUntil5 : Nat → Except Unit Nat :=
  fun n => if n ≥ 5 then .ok 42 else .error ()

/-- An operation that always fails, reporting the attempt number. -/
def opAlwaysFails : Nat → Except Nat Nat := fun n => .error n

/-- C3 counterexample: with the default limit, an operation failing on
attempts 1 to 4 and succeeding on attempt 5 returns after four sleeps of 1,
8, 27 and 64 seconds, not after the three sleeps the claim states; and an
always-failing operation sleeps a fifth time (125 seconds) and is attempted
a sixth time before the failure propagates. -/
theorem retry_claimed_schedule_false :
    (retry opFailsUntil5).1 ≠ [1, 8, 27] ∧
    retry opFailsUntil5 = ([1, 8, 27, 64], .ok 42) ∧
    retry opAlwaysFails = ([1, 8, 27, 64, 125], .error 6) := by
  refine ⟨?_, rfl, rfl⟩
  decide

/-- One attempt succeeding: the wrapper returns the value with no sleep of
its own. -/
theorem wrapper_ok {E A : Type} (t fuel n : Nat) (op : Nat → Except E A) (a : A)
    (h : op (n + 1) = .ok a) : wrapper t op fuel n = ([], .ok a) := by
  rw [wrapper.eq_def]
  split
  rw [h]

/-- One attempt failing below the retry limit: sleep the cube of the failure
count and recurse. -/
theorem wrapper_retry_step {E A : Type} (t f' n : Nat) (op : Nat → Except E A)
    (e : E) (h : op (n + 1) = .error e) (hle : n + 1 ≤ t) :
    wrapper t op (f' + 1) n =
      ((n + 1) ^ 3 :: (wrapper t op f' (n + 1)).1, (wrapper t op f' (n + 1)).2) := by
  rw [wrapper.eq_def]
  split
  rw [h]
  simp [Nat.not_lt.mpr hle]

/-- One attempt failing past the retry limit: the failure propagates with no
further sleep. -/
theorem wrapper_stop {E A : Type} (t fuel n : Nat) (op : Nat → Except E A)
    (e : E) (h : op (n + 1) = .error e) (hgt : n + 1 > t) :
    wrapper t op fuel n = ([], .error e) := by
  rw [wrapper.eq_def]
  split
  rw [h]
  cases fuel <;> simp [hgt]

/-- C3 amended: with the default `times_to_retry = 5`, an operation failing
on attempts 1 to 4 and succeeding on attempt 5 returns the success value
after exactly four sleeps of 1, 8, 27 and 64 seconds; an operation that
always fails is attempted six times, sleeping 1, 8, 27, 64 and 125 seconds
between attempts, and the failure of attempt 6 propagates; each sleep
duration is the cube of the number of failed attempts so far. -/
theorem retry_schedule {E A E2 A2 : Type} (op1 : Nat → Except E A)
    (op2 : Nat → Except E2 A2) (a : A) (e : E) (f : Nat → E2)
    (h14 : ∀ n, 1 ≤ n → n ≤ 4 → op1 n = .error e) (h5 : op1 5 = .ok a)
    (hfail : ∀ n, op2 n = .error (f n)) :
    retry op1 = ([1, 8, 27, 64], .ok a) ∧
    retry op2 = ([1, 8, 27, 64, 125], .error (f 6)) := by
  constructor
  · show wrapper 5 op1 5 0 = ([1, 8, 27, 64], .ok a)
    rw [wrapper_retry_step 5 4 0 op1 e (h14 1 (by norm_num) (by norm_num)) (by norm_num)]
    rw [wrapper_retry_step 5 3 1 op1 e (h14 2 (by norm_num) (by norm_num)) (by norm_num)]
    rw [wrapper_retry_step 5 2 2 op1 e (h14 3 (by norm_num) (by norm_num)) (by norm_num)]
    rw [wrapper_retry_step 5 1 3 op1 e (h14 4 (by norm_num) (by norm_num)) (by norm_num)]
    rw [wrapper_ok 5 1 4 op1 a h5]
    rfl
  · show wrapper 5 op2 5 0 = ([1, 8, 27, 64, 125], .error (f 6))
    rw [wrapper_retry_step 5 4 0 op2 (f 1) (hfail 1) (by norm_num)]
    rw [wrapper_retry_step 5 3 1 op2 (f 2) (hfail 2) (by norm_num)]
    rw [wrapper_retry_step 5 2 2 op2 (f 3) (hfail 3) (by norm_num)]
    rw [wrapper_retry_step 5 1 3 op2 (f 4) (hfail 4) (by norm_num)]
    rw [wrapper_retry_step 5 0 4 op2 (f 5) (hfail 5) (by norm_num)]
    rw [wrapper_stop 5 0 5 op2 (f 6) (hfail 6) (by norm_num)]
    rfl

/-- Witness for the amended C3 at the two concrete operations. -/
theorem retry_schedule_witness :
    retry opFailsUntil5 = ([1, 8, 27, 64], .ok 42) ∧
    retry opAlwaysFails = ([1, 8, 27, 64, 125], .error 6) :=
  retry_schedule opFailsUntil5 opAlwaysFails 42 () (fun n => n)
    (fun n h1 h4 => by
      rw [opFailsUntil5, if_neg]
      omega)
    (by rw [opFailsUntil5, if_pos (by norm_num)])
    (fun n => rfl)

/-! ## Branch lemmas for the subdivision search -/

theorem search_zero_total (env : Env) (fuel pfx : Nat)
    (h : min (env.total pfx) 100 = 0) : search env fuel pfx = .ok [] := by
  rw [search.eq_def]
  simp [h]

theorem search_cap (env : Env) (f pfx : Nat)
    (h : min (env.total pfx) 100 = 100) :
    search env (f + 1) pfx =
      Except.map List.flatten
        (searchChildren (fun s => search env f (pfx * 10 + s)) (List.range 10)) := by
  rw [search.eq_def]
  simp [h]

theorem search_cap_exhausted (env : Env) (pfx : Nat)
    (h : min (env.total pfx) 100 = 100) :
    search env 0 pfx = .error .depthExceeded := by
  rw [search.eq_def]
  simp [h]

theorem search_leaf (env : Env) (fuel pfx : Nat)
    (h0 : ¬min (env.total pfx) 100 = 0) (h100 : ¬min (env.total pfx) 100 = 100) :
    search env fuel pfx =
      if ((env.rawRows pfx).map parse_row).length = min (env.total pfx) 100 then
        .ok ((env.rawRows pfx).map parse_row)
      else
        .error (.consistency pfx (min (env.total pfx) 100)
          ((env.rawRows pfx).map parse_row).length) := by
  rw [search.eq_def]
  simp only [if_neg h0, if_neg h100]

theorem searchChildren_error (g : Nat → Except ScrapeError (List Record)) :
    ∀ (l : List Nat) (e : ScrapeError),
      searchChildren g l = .error e → ∃ s ∈ l, g s = .error e := by
  intro l e
  induction l with
  | nil => intro h; simp [searchChildren] at h
  | cons s rest ih =>
    intro h
    cases hgs : g s with
    | error e2 =>
      rw [searchChildren, hgs] at h
      exact ⟨s, List.mem_cons_self s rest, by rw [hgs]; simpa using h⟩
    | ok r =>
      rw [searchChildren, hgs] at h
      cases hrest : searchChildren g rest with
      | error e2 =>
        rw [hrest] at h
        rcases ih (by rw [hrest]; simpa using h) with ⟨x, hx, hgx⟩
        exact ⟨x, List.mem_cons_of_mem s hx, hgx⟩
      | ok rs =>
        rw [hrest] at h
        simp at h

theorem exceptMap_error {α β : Type} (f : α → β) (x : Except ScrapeError α)
    (e : ScrapeError) (h : Except.map f x = .error e) : x = .error e := by
  cases x with
  | error e2 => cases h; rfl
  | ok a => exact absurd h (by simp [Except.map])

/-! ## Claim C1: subdivision at or above the cap -/

/-- C1: whenever a prefix's query reports a total at or above the cap
(the pager shows "of 100 items" exactly when at least 100 records match, a
report of exactly 100 included), `search` returns the concatenation, over
the digits 0 to 9 in order appended as `pfx * 10 + s`, of the searches of
the extended prefixes, errors propagating unchanged. -/
theorem search_subdivides_at_cap (env : Env) (fuel pfx : Nat)
    (h : 100 ≤ env.total pfx) :
    search env (fuel + 1) pfx =
      Except.map List.flatten
        (searchChildren (fun s => search env fuel (pfx * 10 + s)) (List.range 10)) :=
  search_cap env fuel pfx (min_eq_right h)

/-- A concrete environment whose prefix 7 reports at least the cap. -/
def rowOf (t : String) : RawRow := ⟨fun _ => pystr t⟩

def envA : Env :=
  { total := fun p => if p = 7 then 100 else 3
    rawRows := fun _ => [rowOf "a", rowOf "b", rowOf "c"] }

/-- Witness for C1 at `envA`, prefix 7. -/
theorem search_subdivides_at_cap_witness :
    search envA 1 7 =
      Except.map List.flatten
        (searchChildren (fun s => search envA 0 (7 * 10 + s)) (List.range 10)) :=
  search_subdivides_at_cap envA 0 7 (by decide)

/-! ## Claim C2: below-cap leaves -/

/-- C2: a zero report returns the empty list; for a report strictly between
0 and the cap, the leaf returns the extracted rows exactly when their count
equals the reported total, raises the consistency ValueError naming the
expected and scraped counts otherwise, and any successfully returned leaf
list has exactly the reported length. -/
theorem search_leaf_counts (env : Env) (fuel pfx : Nat) :
    (env.total pfx = 0 → search env fuel pfx = .ok []) ∧
    (0 < env.total pfx → env.total pfx < 100 →
      (((env.rawRows pfx).map parse_row).length = env.total pfx →
        search env fuel pfx = .ok ((env.rawRows pfx).map parse_row)) ∧
      (((env.rawRows pfx).map parse_row).length ≠ env.total pfx →
        search env fuel pfx =
          .error (.consistency pfx (env.total pfx)
            ((env.rawRows pfx).map parse_row).length)) ∧
      (∀ rs, search env fuel pfx = .ok rs → rs.length = env.total pfx)) := by
  constructor
  · intro h
    exact search_zero_total env fuel pfx (by rw [h]; rfl)
  · intro hpos hlt
    have hmin : min (env.total pfx) 100 = env.total pfx := min_eq_left (le_of_lt hlt)
    have h0 : ¬min (env.total pfx) 100 = 0 := by omega
    have h100 : ¬min (env.total pfx) 100 = 100 := by omega
    have hsplit := search_leaf env fuel pfx h0 h100
    rw [hmin] at hsplit
    refine ⟨?_, ?_, ?_⟩
    · intro hlen
      rw [hsplit, if_pos hlen]
    · intro hne
      rw [hsplit, if_neg hne]
    · intro rs hrs
      rw [hsplit] at hrs
      by_cases hlen : ((env.rawRows pfx).map parse_row).length = env.total pfx
      · rw [if_pos hlen] at hrs
        rw [← Except.ok.inj hrs]
        exact hlen
      · rw [if_neg hlen] at hrs
        exact absurd hrs (by simp)

/-- A concrete environment with an empty, a consistent, and an inconsistent
below-cap prefix. -/
def envB : Env :=
  { total := fun p => if p = 1 then 0 else if p = 2 then 2 else if p = 3 then 4 else 1
    rawRows := fun p =>
      if p = 2 then [rowOf "a", rowOf "b"] else if p = 3 then [rowOf "x"] else [] }

/-- Witness for C2 at `envB`: prefix 1 is empty, prefix 2 consistent with 2
rows, prefix 3 reports 4 but yields 1 row and aborts. -/
theorem search_leaf_counts_witness :
    search envB 1 1 = .ok [] ∧
    search envB 1 2 = .ok ((envB.rawRows 2).map parse_row) ∧
    search envB 1 3 =
      .error (.consistency 3 (envB.total 3) ((envB.rawRows 3).map parse_row).length) :=
  ⟨(search_leaf_counts envB 1 1).1 (by decide),
   ((search_leaf_counts envB 1 2).2 (by decide) (by decide)).1 (by decide),
   ((search_leaf_counts envB 1 3).2 (by decide) (by decide)).2.1 (by decide)⟩

/-! ## Claim C6: termination of the subdivision -/

theorem numDigits_child (pfx s : Nat) (h1 : 1 ≤ pfx) (hs : s < 10) :
    numDigits (pfx * 10 + s) = numDigits pfx + 1 := by
  unfold numDigits
  have hlow : 10 ^ (Nat.log 10 pfx + 1) ≤ pfx * 10 + s := by
    have hp := Nat.pow_log_le_self 10 (by omega : pfx ≠ 0)
    calc 10 ^ (Nat.log 10 pfx + 1) = 10 ^ Nat.log 10 pfx * 10 := by rw [pow_succ]
    _ ≤ pfx * 10 := Nat.mul_le_mul_right 10 hp
    _ ≤ pfx * 10 + s := Nat.le_add_right _ _
  have hhigh : pfx * 10 + s < 10 ^ (Nat.log 10 pfx + 1 + 1) := by
    have hp := Nat.lt_pow_succ_log_self (by norm_num : 1 < 10) pfx
    calc pfx * 10 + s < (pfx + 1) * 10 := by omega
    _ ≤ 10 ^ (Nat.log 10 pfx + 1) * 10 := Nat.mul_le_mul_right 10 (by omega)
    _ = 10 ^ (Nat.log 10 pfx + 1 + 1) := by rw [← pow_succ]
  rw [Nat.log_eq_of_pow_le_of_lt_pow hlow hhigh]

/-- C6: under the interface model, where every prefix of at least the
domain's maximum length D reports a below-cap total, the enumeration never
exhausts its depth budget: with fuel covering the remaining digits the
result is never the depth sentinel, i.e. every below-cap query is a leaf
ending the recursion and the recursion depth is bounded by D. -/
theorem search_terminates (env : Env) (D : Nat)
    (hbelow : ∀ q, D ≤ numDigits q → env.total q < 100) :
    ∀ fuel pfx, 1 ≤ pfx → D ≤ numDigits pfx + fuel →
      search env fuel pfx ≠ .error .depthExceeded := by
  intro fuel
  induction fuel with
  | zero =>
    intro pfx h1 hD
    rw [Nat.add_zero] at hD
    have ht := hbelow pfx hD
    have hmin : min (env.total pfx) 100 = env.total pfx := min_eq_left (le_of_lt ht)
    by_cases h0 : env.total pfx = 0
    · rw [search_zero_total env 0 pfx (by rw [hmin, h0])]
      simp
    · rw [search_leaf env 0 pfx (by omega) (by omega)]
      by_cases hlen : ((env.rawRows pfx).map parse_row).length = min (env.total pfx) 100
      · rw [if_pos hlen]
        simp
      · rw [if_neg hlen]
        simp
  | succ f ih =>
    intro pfx h1 hD
    by_cases h0 : min (env.total pfx) 100 = 0
    · rw [search_zero_total env (f + 1) pfx h0]
      simp
    · by_cases hcap : min (env.total pfx) 100 = 100
      · rw [search_cap env f pfx hcap]
        intro heq
        have hch := exceptMap_error _ _ _ heq
        rcases searchChildren_error _ (List.range 10) _ hch with ⟨s, hsmem, hserr⟩
        have hs10 : s < 10 := List.mem_range.mp hsmem
        have hchild1 : 1 ≤ pfx * 10 + s := by omega
        have hchildD : D ≤ numDigits (pfx * 10 + s) + f := by
          rw [numDigits_child pfx s h1 hs10]
          omega
        exact ih (pfx * 10 + s) hchild1 hchildD hserr
      · rw [search_leaf env (f + 1) pfx h0 hcap]
        by_cases hlen : ((env.rawRows pfx).map parse_row).length = min (env.total pfx) 100
        · rw [if_pos hlen]
          simp
        · rw [if_neg hlen]
          simp

/-- A concrete interface model: every prefix of two or more digits is below
cap, single-digit prefixes are capped. -/
def envC : Env :=
  { total := fun p => if p ≤ 9 then 100 else 5
    rawRows := fun _ => [] }

/-- Witness for C6 at `envC` with D = 2: the recursion subdivides prefix 5
once and every child is a leaf (here an inconsistent one, which still ends
the recursion without exhausting depth). -/
theorem search_terminates_witness :
    search envC 3 5 ≠ .error .depthExceeded :=
  search_terminates envC 2
    (fun q hq => by
      have hlog : ¬Nat.log 10 q = 0 := by
        unfold numDigits at hq
        omega
      have h10 : 10 ≤ q := by
        by_contra hlt
        exact hlog (Nat.log_eq_zero_iff.mpr (Or.inl (by omega)))
      show (if q ≤ 9 then 100 else 5) < 100
      rw [if_neg (by omega)]
      norm_num)
    3 5 (by norm_num)
    (by
      have := Nat.zero_le (Nat.log 10 5)
      unfold numDigits
      omega)

/-! ## Claims C5 and C10: the csv sink -/

theorem writerows_all_keys (fns : List Str) (rows : List Record)
    (h : ∀ r ∈ rows, keys r = fns) :
    writerows fns rows = (rows.map (renderRow fns), none) := by
  induction rows with
  | nil => rfl
  | cons r rs ih =>
    have hall : r.all (fun p => decide (p.1 ∈ fns)) = true := by
      rw [List.all_eq_true]
      intro p hp
      rw [decide_eq_true_eq, ← h r (List.mem_cons_self r rs)]
      exact List.mem_map_of_mem Prod.fst hp
    rw [writerows, if_pos hall, ih (fun x hx => h x (List.mem_cons_of_mem r hx))]
    rfl

/-- C5: writing batch A then batch B to a fresh (absent or empty) file
produces one header row of the first record's field names, then A's rows,
then B's rows, with no second header; an empty batch is a no-op; and on any
existing file the sink only ever appends a (possibly empty) suffix. -/
theorem write_csv_two_batches (A B : List Record) (fns : List Str)
    (f0 : Option CsvContent) (hf0 : f0 = none ∨ f0 = some [])
    (hA : A ≠ []) (hB : B ≠ []) (hfns : fns ≠ [])
    (hAk : ∀ r ∈ A, keys r = fns) (hBk : ∀ r ∈ B, keys r = fns) :
    write_csv A f0 = (some ([fns] ++ A.map (renderRow fns)), none) ∧
    write_csv B (some ([fns] ++ A.map (renderRow fns))) =
      (some ([fns] ++ A.map (renderRow fns) ++ B.map (renderRow fns)), none) ∧
    (∀ f, write_csv ([] : List Record) f = (f, none)) ∧
    (∀ rows content, ∃ t, (write_csv rows (some content)).1 = some (content ++ t)) := by
  refine ⟨?_, ?_, fun f => rfl, ?_⟩
  · cases A with
    | nil => exact absurd rfl hA
    | cons a as =>
      have hka : keys a = fns := hAk a (List.mem_cons_self a as)
      rw [write_csv, hka, if_neg hfns, writerows_all_keys fns (a :: as) hAk]
      have hcontent : f0.getD [] = [] := by
        rcases hf0 with rfl | rfl <;> rfl
      rw [hcontent]
      rfl
  · cases B with
    | nil => exact absurd rfl hB
    | cons b bs =>
      have hkb : keys b = fns := hBk b (List.mem_cons_self b bs)
      rw [write_csv, hkb, if_neg hfns, writerows_all_keys fns (b :: bs) hBk]
      rfl
  · intro rows content
    cases rows with
    | nil => exact ⟨[], by simp [write_csv]⟩
    | cons r rs =>
      by_cases hk : keys r = []
      · refine ⟨[], ?_⟩
        rw [write_csv, if_pos hk]
        simp
      · rw [write_csv, if_neg hk]
        by_cases hc : content = []
        · subst hc
          exact ⟨[keys r] ++ (writerows (keys r) (r :: rs)).1, rfl⟩
        · exact ⟨(writerows (keys r) (r :: rs)).1, by simp [hc]⟩

/-- Example records for the sink witnesses. -/
def recA1 : Record := [(pystr "x", pystr "1"), (pystr "y", pystr "2")]

def recB1 : Record := [(pystr "x", pystr "3"), (pystr "y", pystr "4")]

/-- Witness for C5: two one-record batches of the same shape written to a
fresh file produce one header and both rows in order. -/
theorem write_csv_two_batches_witness :
    write_csv [recA1] (some []) =
      (some ([keys recA1] ++ [recA1].map (renderRow (keys recA1))), none) ∧
    write_csv [recB1] (some ([keys recA1] ++ [recA1].map (renderRow (keys recA1)))) =
      (some ([keys recA1] ++ [recA1].map (renderRow (keys recA1)) ++
        [recB1].map (renderRow (keys recA1))), none) :=
  ⟨(write_csv_two_batches [recA1] [recB1] (keys recA1) (some [])
      (Or.inr rfl) (by decide) (by decide) (by decide) (by decide) (by decide)).1,
   (write_csv_two_batches [recA1] [recB1] (keys recA1) (some [])
      (Or.inr rfl) (by decide) (by decide) (by decide) (by decide)
      (by decide)).2.1⟩

/-- C10: a batch whose first record is an empty mapping returns without
touching the destination (absent files stay absent, contents stay
unchanged, no error), whatever the later records hold; an empty batch
likewise performs no filesystem action. -/
theorem write_csv_no_fields_noop :
    (∀ (rest : List Record) (f : Option CsvContent),
      write_csv (([] : Record) :: rest) f = (f, none)) ∧
    (∀ f : Option CsvContent, write_csv [] f = (f, none)) :=
  ⟨fun _ _ => rfl, fun _ => rfl⟩

/-! ## Claim C9: pagination count mismatches are non-fatal -/

theorem get_page_ok (page : List BookingSrc)
    (h : ∀ b ∈ page, b.reported_charges = b.charges.length) :
    get_page page = .ok page := by
  induction page with
  | nil => rfl
  | cons b rest ih =>
    have hb : get_booking b = .ok b := by
      rw [get_booking, if_pos (h b (List.mem_cons_self b rest))]
    rw [get_page, hb, ih (fun x hx => h x (List.mem_cons_of_mem b hx))]

theorem get_paginated_ok (pages : List (List BookingSrc))
    (h : ∀ p ∈ pages, ∀ b ∈ p, b.reported_charges = b.charges.length) :
    get_paginated pages = .ok pages.flatten := by
  induction pages with
  | nil => rfl
  | cons p ps ih =>
    rw [get_paginated, get_page_ok p (h p (List.mem_cons_self p ps)),
      ih (fun q hq => h q (List.mem_cons_of_mem p hq))]
    rfl

/-- C9: when the bookings themselves extract cleanly but the heading's total
disagrees with the number of extracted results, `run` still returns all the
extracted bookings successfully, recording the discrepancy only as a log
entry: the mismatch raises nothing and aborts nothing. -/
theorem run_count_mismatch_nonfatal (env : JailEnv)
    (hcons : ∀ p ∈ env.pages, ∀ b ∈ p, b.reported_charges = b.charges.length)
    (hmis : env.totalCandidates ≠ (extracted_bookings env).length) :
    run env = .ok (extracted_bookings env,
      [JailLog.countMismatch env.totalCandidates (extracted_bookings env).length]) := by
  by_cases h15 : env.totalCandidates > 15
  · have hext : extracted_bookings env = env.pages.flatten := by
      rw [extracted_bookings, if_pos h15]
    rw [hext] at hmis ⊢
    rw [run, if_pos h15, get_paginated_ok env.pages hcons]
    simp
    simpa using hmis
  · have hfirst : get_page (env.pages.headD []) = .ok (env.pages.headD []) := by
      cases hp : env.pages with
      | nil => rfl
      | cons p ps =>
        exact get_page_ok p (hcons p (by rw [hp]; exact List.mem_cons_self p ps))
    have hext : extracted_bookings env = env.pages.headD [] := by
      rw [extracted_bookings, if_neg h15]
    rw [hext] at hmis ⊢
    rw [run, if_neg h15, hfirst]
    simp
    simpa using hmis

/-- A concrete jail environment: one consistent booking on the first page,
but a reported total of 5. -/
def bookingOne : BookingSrc :=
  { reported_charges := 1, charges := [pystr "THEFT"], name := pystr "DOE" }

def envJ : JailEnv := { totalCandidates := 5, pages := [[bookingOne]] }

/-- Witness for C9 at `envJ`: one booking comes back, the mismatch with the
reported 5 is logged, and the run is still a success. -/
theorem run_count_mismatch_nonfatal_witness :
    run envJ = .ok (extracted_bookings envJ,
      [JailLog.countMismatch envJ.totalCandidates (extracted_bookings envJ).length]) :=
  run_count_mismatch_nonfatal envJ (by decide) (by decide)

end LaneScrape
